import Mathlib

/-!
Shallow embedding of the NSW property data pipeline (`server.js`) and proofs
about its record parser, chunk writer, index builder, archive scanner and
query layer.  Numeric values produced by JavaScript `parseFloat` are modelled
as exact decimal values; strings are Lean `String`s; JavaScript truthiness on
strings ("" is falsy) and numbers (0 is falsy) is modelled explicitly.
-/

set_option maxRecDepth 20000

namespace NSWProperty

/-- Scan a decimal-digit prefix of a character list, returning the
accumulated value, the number of digits consumed, and the rest. -/
def scanDigits : List Char → Nat → Nat → Nat × Nat × List Char
  | [], v, n => (v, n, [])
  | c :: cs, v, n =>
    if c.isDigit then scanDigits cs (10 * v + (c.toNat - 48)) (n + 1)
    else (v, n, c :: cs)

/-- Exact value of a JavaScript number as produced by `parseFloat` on this
program's decimal data: an unnormalised fraction `num / den` with `den` a
power of ten.  Kept unnormalised so that every operation reduces in the
kernel; the comparisons used by the program are defined by
cross-multiplication and agree with the rational value. -/
structure JsNum where
  num : Int
  den : Nat
deriving DecidableEq, Repr

namespace JsNum

/-- Embed a natural number. -/
def ofNat (n : Nat) : JsNum := ⟨(n : Int), 1⟩

/-- Value-level strict order on `JsNum` (denominators are positive powers
of ten for every number this program constructs). -/
def Lt (a b : JsNum) : Prop := a.num * (b.den : Int) < b.num * (a.den : Int)

instance (a b : JsNum) : Decidable (a.Lt b) := by
  unfold JsNum.Lt
  infer_instance

/-- JavaScript falsity test for a number: its value is zero. -/
def isZero (a : JsNum) : Bool := a.num = 0

/-- Assemble the value `mantNum / mantDen * 10 ^ ex`; the value zero is
represented canonically as `0 / 1`. -/
def ofDecimal (mantNum : Int) (mantDen : Nat) (ex : Int) : JsNum :=
  if mantNum = 0 then ⟨0, 1⟩
  else if 0 ≤ ex then ⟨mantNum * (10 : Int) ^ ex.toNat, mantDen⟩
  else ⟨mantNum, mantDen * 10 ^ (-ex).toNat⟩

/-- Numbers built by `ofDecimal` represent zero only in the canonical
form `0 / 1`. -/
theorem ofDecimal_zero_canonical (mantNum : Int) (mantDen : Nat) (ex : Int)
    (h0 : (ofDecimal mantNum mantDen ex).num = 0) :
    (ofDecimal mantNum mantDen ex).den = 1 := by
  unfold ofDecimal at h0 ⊢
  by_cases hm : mantNum = 0
  · simp [hm]
  · rw [if_neg hm] at h0 ⊢
    by_cases he : 0 ≤ ex
    · rw [if_pos he] at h0
      exact absurd h0 (mul_ne_zero hm (pow_ne_zero _ (by decide)))
    · rw [if_neg he] at h0
      exact absurd h0 hm

end JsNum

/-- Scan an optional exponent suffix (`e`/`E`, optional sign, digits), as
JavaScript `parseFloat` accepts; `none` when no well-formed exponent
follows (in which case `parseFloat` ignores the trailing text). -/
def scanExponent : List Char → Option Int
  | 'e' :: t => scanSignedDigits t
  | 'E' :: t => scanSignedDigits t
  | _ => none
where
  /-- Optional sign followed by at least one digit. -/
  scanSignedDigits : List Char → Option Int
  | '+' :: t2 =>
    let r := scanDigits t2 0 0
    if r.2.1 = 0 then none else some (r.1 : Int)
  | '-' :: t2 =>
    let r := scanDigits t2 0 0
    if r.2.1 = 0 then none else some (-(r.1 : Int))
  | t2 =>
    let r := scanDigits t2 0 0
    if r.2.1 = 0 then none else some (r.1 : Int)

/-- Model of JavaScript `parseFloat`: skip leading whitespace, parse an
optional sign, a digit string with optional fractional part and optional
exponent, longest valid prefix; `none` models `NaN`.  The result is an
exact decimal value (the special form `Infinity` is not modelled and
parses as `NaN`, which leads to the same accept/reject behaviour in every
use in this program, since both fail the strict price bounds).  The value
zero is always represented canonically as `0 / 1`, so that the
representation of a number is a function of its value wherever the program
compares or substitutes zero. -/
def parseFloatNum (s : String) : Option JsNum :=
  let cs0 := s.toList.dropWhile (fun c => c.isWhitespace)
  let signRest : Int × List Char :=
    match cs0 with
    | '+' :: t => (1, t)
    | '-' :: t => (-1, t)
    | t => (1, t)
  let intPart := scanDigits signRest.2 0 0
  let fracPart : Nat × Nat × List Char :=
    match intPart.2.2 with
    | '.' :: t => scanDigits t 0 0
    | t => (0, 0, t)
  if intPart.2.1 + fracPart.2.1 = 0 then none
  else
    some (JsNum.ofDecimal
      (signRest.1 * ((intPart.1 : Int) * (10 : Int) ^ fracPart.2.1 + (fracPart.1 : Int)))
      (10 ^ fracPart.2.1)
      ((scanExponent fracPart.2.2).getD 0))

/-- Split a character list at every occurrence of a separator character;
auxiliary for `jsSplit`. -/
def splitCharAux (sep : Char) : List Char → List Char → List String
  | [], acc => [String.mk acc.reverse]
  | c :: t, acc =>
    if c = sep then String.mk acc.reverse :: splitCharAux sep t []
    else splitCharAux sep t (c :: acc)

/-- JavaScript `String.prototype.split` with a single-character separator
(`"".split(sep)` is `[""]`, a trailing separator yields a trailing
empty field, exactly as in JavaScript). -/
def jsSplit (s : String) (sep : Char) : List String :=
  splitCharAux sep s.toList []

/-- Uppercase a string character-wise (JavaScript `toUpperCase` on the
ASCII data this program handles). -/
def toUpperStr (s : String) : String :=
  String.mk (s.toList.map Char.toUpper)

/-- Lowercase a string character-wise (JavaScript `toLowerCase` on the
ASCII data this program handles). -/
def toLowerStr (s : String) : String :=
  String.mk (s.toList.map Char.toLower)

/-- JavaScript `String.prototype.trim`: strip whitespace at both ends. -/
def trimStr (s : String) : String :=
  String.mk (((s.toList.dropWhile Char.isWhitespace).reverse.dropWhile Char.isWhitespace).reverse)

/-- JavaScript `String.prototype.substring(a, b)`. -/
def substringStr (s : String) (a b : Nat) : String :=
  String.mk ((s.toList.drop a).take (b - a))

/-- JavaScript `x || alt` where `x` is a possibly-absent string
(`none` models `undefined`/`null`, `""` is falsy). -/
def orStr : Option String → String → String
  | some s, alt => if s = "" then alt else s
  | none, alt => alt

/-- JavaScript `x || alt` where `x` is a possibly-absent number
(`none` models `undefined`/`null`/`NaN`, `0` is falsy). -/
def orNum : Option JsNum → JsNum → JsNum
  | some v, alt => if v.isZero then alt else v
  | none, alt => alt

/-- JavaScript `x || alt` for a possibly-absent nonnegative integer. -/
def orNat : Option Nat → Nat → Nat
  | some v, alt => if v = 0 then alt else v
  | none, alt => alt

/-- Indexing into the split field list; JavaScript `fields[i]` is only read
at indices guaranteed in bounds (the parser requires at least 20 fields),
so the default is never observed there. -/
def fget (fields : List String) (i : Nat) : String :=
  fields.getD i ""

/-- JavaScript `String.prototype.includes`: substring containment. -/
def jsIncludes (s sub : String) : Bool :=
  go s.toList
where
  /-- Check `sub` as a prefix at every position of the character list. -/
  go : List Char → Bool
  | [] => sub.toList.isPrefixOf ([] : List Char)
  | c :: t => sub.toList.isPrefixOf (c :: t) || go t

/-- One validated sale, as built by `parsePropertyLine` in `server.js`. -/
structure TransactionRecord where
  recordType : String
  districtCode : String
  propertyId : String
  saleCounter : String
  downloadDateTime : String
  propertyName : String
  unitNumber : String
  houseNumber : String
  streetName : String
  locality : String
  postcode : String
  area : JsNum
  areaType : String
  contractDate : String
  settlementDate : String
  salePrice : JsNum
  zoning : String
  natureOfProperty : String
  primaryPurpose : String
  strataLot : String
  year : Nat
  address : String
  suburb : String
  propertyType : String
  saleDate : Option String
deriving DecidableEq, Repr

/-- Cascade classification `determinePropertyType(nature, purpose)` from
`server.js` (first match wins). -/
def determinePropertyType (nature purpose : String) : String :=
  if nature = "V" then "Vacant Land"
  else if nature = "R" then "Residence"
  else if purpose ≠ "" ∧ jsIncludes purpose "RESIDENCE" then "House"
  else if purpose ≠ "" ∧ jsIncludes purpose "UNIT" then "Unit"
  else if purpose ≠ "" ∧ jsIncludes purpose "TOWNHOUSE" then "Townhouse"
  else if nature = "3" ∧ purpose ≠ "" then purpose
  else "Property"

/-- Reformat `formatDate(dateStr)` from `server.js`: an 8-character
`YYYYMMDD` string becomes `YYYY-MM-DD`; anything else yields `none`
(JavaScript `null`). -/
def formatDate (dateStr : String) : Option String :=
  if dateStr = "" ∨ dateStr.length ≠ 8 then none
  else
    some (substringStr dateStr 0 4 ++ "-" ++ substringStr dateStr 4 6 ++ "-" ++
      substringStr dateStr 6 8)

/-- Build the (not yet validated) record from the split fields, mirroring
the field mapping and the derivations in `parsePropertyLine`. -/
def buildPropertyRecord (fields : List String) (year : Nat) : TransactionRecord :=
  let unitNumber := fget fields 6
  let houseNumber := fget fields 7
  let streetName := fget fields 8
  let locality := fget fields 9
  let natureOfProperty := fget fields 17
  let primaryPurpose := fget fields 18
  let settlementDate := fget fields 14
  let fullAddress :=
    (if unitNumber ≠ "" then unitNumber ++ "/" else "")
      ++ (if houseNumber ≠ "" then houseNumber ++ " " else "")
      ++ (if streetName ≠ "" then streetName else "")
  { recordType := fget fields 0
    districtCode := fget fields 1
    propertyId := fget fields 2
    saleCounter := fget fields 3
    downloadDateTime := fget fields 4
    propertyName := fget fields 5
    unitNumber := unitNumber
    houseNumber := houseNumber
    streetName := streetName
    locality := locality
    postcode := fget fields 10
    area := (parseFloatNum (fget fields 11)).getD (JsNum.ofNat 0)
    areaType := fget fields 12
    contractDate := fget fields 13
    settlementDate := settlementDate
    salePrice := (parseFloatNum (fget fields 15)).getD (JsNum.ofNat 0)
    zoning := fget fields 16
    natureOfProperty := natureOfProperty
    primaryPurpose := primaryPurpose
    strataLot := fget fields 19
    year := year
    address := toUpperStr (trimStr fullAddress)
    suburb := toUpperStr locality
    propertyType := determinePropertyType natureOfProperty primaryPurpose
    saleDate := formatDate settlementDate }

/-- Model of `parsePropertyLine(line, year)` from `server.js`: split on
semicolons, reject when fewer than 20 fields, build the record, then
validate composed address, suburb and the strict price bounds.  The
function is total: every failure is the `none` result, never an
exception. -/
def parsePropertyLine (line : String) (year : Nat) : Option TransactionRecord :=
  if (jsSplit line ';').length < 20 then none
  else if (buildPropertyRecord (jsSplit line ';') year).address ≠ "" ∧
      (buildPropertyRecord (jsSplit line ';') year).suburb ≠ "" ∧
      JsNum.Lt (JsNum.ofNat 1000) (buildPropertyRecord (jsSplit line ';') year).salePrice ∧
      JsNum.Lt (buildPropertyRecord (jsSplit line ';') year).salePrice (JsNum.ofNat 50000000)
  then some (buildPropertyRecord (jsSplit line ';') year)
  else none

/-- The sample line from the NSW format documentation in `server.js`. -/
def sampleLine : String :=
  "B;001;1667;1;20200106 01:00;;;103;RAWSON ST;ABERDARE;2325;1011.83;M;20191116;20191230;260000;R2;R;RESIDENCE;;AAD;;0;AP807655;"

/-- The sample line with the sale price replaced by 1000. -/
def sampleLine1000 : String :=
  "B;001;1667;1;20200106 01:00;;;103;RAWSON ST;ABERDARE;2325;1011.83;M;20191116;20191230;1000;R2;R;RESIDENCE;;AAD;;0;AP807655;"

/-- The sample line with the sale price replaced by 1001. -/
def sampleLine1001 : String :=
  "B;001;1667;1;20200106 01:00;;;103;RAWSON ST;ABERDARE;2325;1011.83;M;20191116;20191230;1001;R2;R;RESIDENCE;;AAD;;0;AP807655;"

/-- C1: `parsePropertyLine` yields `none` (never an exception — it is a
total function) exactly when the line has fewer than 20 semicolon-separated
fields, or the composed full address or suburb is empty, or the sale price
is not strictly between 1000 and 50,000,000; in particular the sample
record with price 1000 is rejected and with price 1001 is accepted. -/
theorem parsePropertyLine_none_iff :
    (∀ (line : String) (year : Nat),
      parsePropertyLine line year = none ↔
        ((jsSplit line ';').length < 20 ∨
          (buildPropertyRecord (jsSplit line ';') year).address = "" ∨
          (buildPropertyRecord (jsSplit line ';') year).suburb = "" ∨
          ¬(JsNum.Lt (JsNum.ofNat 1000) (buildPropertyRecord (jsSplit line ';') year).salePrice ∧
            JsNum.Lt (buildPropertyRecord (jsSplit line ';') year).salePrice
              (JsNum.ofNat 50000000)))) ∧
    parsePropertyLine sampleLine1000 2020 = none ∧
    (parsePropertyLine sampleLine1001 2020).isSome = true := by
  refine ⟨fun line year => ?_, by decide, by decide⟩
  unfold parsePropertyLine
  split
  · simp_all
  · split
    all_goals simp_all
    all_goals tauto

/-- C2: on the documented sample line with year 2020, the parser returns a
record with address `"103 RAWSON ST"`, suburb `"ABERDARE"`, sale price
260000, sale date `"2019-12-30"` (reformatted from settlement date, field
14) and property type `"Residence"` (nature-of-property flag `R`). -/
theorem parsePropertyLine_sample :
    (parsePropertyLine sampleLine 2020).map
        (fun r => (r.address, r.suburb, r.salePrice, r.saleDate, r.propertyType, r.settlementDate))
      = some ("103 RAWSON ST", "ABERDARE", JsNum.ofNat 260000, some "2019-12-30", "Residence",
          "20191230") := by
  decide

/-- A property record as found in the persisted JSON artifacts, in either
the compact-alias shape (short keys `a`, `s`, `p`, `t`, `$`, `d`, `l`,
`m`, `y`, `z`, `n`) or the expanded shape (full field names); `none`
models an absent key (or JavaScript `null`, which is equally falsy).  The
`$` key is named `dollar` here because `$` is not a Lean identifier. -/
structure RawProp where
  a : Option String := none
  s : Option String := none
  p : Option String := none
  t : Option String := none
  dollar : Option JsNum := none
  d : Option String := none
  l : Option String := none
  m : Option JsNum := none
  y : Option Nat := none
  z : Option String := none
  n : Option String := none
  address : Option String := none
  suburb : Option String := none
  postcode : Option String := none
  propertyType : Option String := none
  salePrice : Option JsNum := none
  saleDate : Option String := none
  districtCode : Option String := none
  area : Option JsNum := none
  year : Option Nat := none
  zoning : Option String := none
  natureOfProperty : Option String := none
deriving DecidableEq, Repr

/-- The expanded record produced by `decompressProperty` in `server.js`
(all eleven compact-alias fields, with JavaScript `||` defaults). -/
structure PlainProperty where
  address : String
  suburb : String
  postcode : String
  propertyType : String
  salePrice : JsNum
  saleDate : String
  districtCode : String
  area : JsNum
  year : Nat
  zoning : String
  natureOfProperty : String
deriving DecidableEq, Repr

/-- Model of `compressProperty(prop)` from `server.js`: emit the
compact-alias shape. -/
def compressProperty (prop : TransactionRecord) : RawProp :=
  { a := some prop.address
    s := some prop.suburb
    p := some prop.postcode
    t := some prop.propertyType
    dollar := some prop.salePrice
    d := prop.saleDate
    l := some prop.districtCode
    m := some prop.area
    y := some prop.year
    z := some prop.zoning
    n := some prop.natureOfProperty }

/-- Model of `decompressProperty(comp)` from `server.js`: read each field
from the alias key, falling back to the full key and then a default,
with JavaScript `||` truthiness. -/
def decompressProperty (comp : RawProp) : PlainProperty :=
  { address := orStr comp.a (orStr comp.address "")
    suburb := orStr comp.s (orStr comp.suburb "")
    postcode := orStr comp.p (orStr comp.postcode "")
    propertyType := orStr comp.t (orStr comp.propertyType "")
    salePrice := orNum comp.dollar (orNum comp.salePrice (JsNum.ofNat 0))
    saleDate := orStr comp.d (orStr comp.saleDate "")
    districtCode := orStr comp.l (orStr comp.districtCode "")
    area := orNum comp.m (orNum comp.area (JsNum.ofNat 0))
    year := orNat comp.y (orNat comp.year 0)
    zoning := orStr comp.z (orStr comp.zoning "")
    natureOfProperty := orStr comp.n (orStr comp.natureOfProperty "") }

/-- Projection of a validated `TransactionRecord` onto the eleven
compact-alias fields (the comparison glue for the round-trip statement;
a `none` sale date projects to the empty string, as `decompressProperty`
yields strings). -/
def toPlain (r : TransactionRecord) : PlainProperty :=
  { address := r.address
    suburb := r.suburb
    postcode := r.postcode
    propertyType := r.propertyType
    salePrice := r.salePrice
    saleDate := r.saleDate.getD ""
    districtCode := r.districtCode
    area := r.area
    year := r.year
    zoning := r.zoning
    natureOfProperty := r.natureOfProperty }

/-- JavaScript `(some x) || ""` keeps the string `x` (an empty `x` is
replaced by the empty default, which is the same string). -/
theorem orStr_some_empty (x : String) : orStr (some x) "" = x := by
  unfold orStr
  split <;> simp_all

/-- JavaScript `undefined || alt` is `alt`. -/
theorem orStr_none (alt : String) : orStr none alt = alt := rfl

/-- Every number `parseFloatNum` returns represents zero only in the
canonical form `0 / 1`. -/
theorem parseFloatNum_zero_canonical (s : String) (v : JsNum)
    (h : parseFloatNum s = some v) (h0 : v.num = 0) : v.den = 1 := by
  unfold parseFloatNum at h
  dsimp only at h
  split at h
  · cases h
  · rw [Option.some_inj] at h
    subst h
    exact JsNum.ofDecimal_zero_canonical _ _ _ h0

/-- The numeric fields of a parsed record represent zero only canonically. -/
theorem buildPropertyRecord_num_canonical (fields : List String) (year : Nat) :
    (((buildPropertyRecord fields year).salePrice.num = 0 →
        (buildPropertyRecord fields year).salePrice.den = 1) ∧
      ((buildPropertyRecord fields year).area.num = 0 →
        (buildPropertyRecord fields year).area.den = 1)) := by
  constructor
  · intro h0
    show ((parseFloatNum (fget fields 15)).getD (JsNum.ofNat 0)).den = 1
    rcases hp : parseFloatNum (fget fields 15) with _ | v
    · rfl
    · have := parseFloatNum_zero_canonical (fget fields 15) v hp
      simp only [buildPropertyRecord, hp] at h0 ⊢
      exact this h0
  · intro h0
    show ((parseFloatNum (fget fields 11)).getD (JsNum.ofNat 0)).den = 1
    rcases hp : parseFloatNum (fget fields 11) with _ | v
    · rfl
    · have := parseFloatNum_zero_canonical (fget fields 11) v hp
      simp only [buildPropertyRecord, hp] at h0 ⊢
      exact this h0

/-- C10: for a record accepted by the parser whose settlement date was a
valid 8-character string, decompressing its compressed form restores all
eleven compact-alias fields exactly. -/
theorem decompress_compress_roundtrip (line : String) (yr : Nat) (r : TransactionRecord)
    (hp : parsePropertyLine line yr = some r) (hd : r.settlementDate.length = 8) :
    decompressProperty (compressProperty r) = toPlain r := by
  have hr : r = buildPropertyRecord (jsSplit line ';') yr := by
    unfold parsePropertyLine at hp
    split at hp
    · cases hp
    · split at hp
      · cases hp
        rfl
      · cases hp
  have hnum := buildPropertyRecord_num_canonical (jsSplit line ';') yr
  rw [← hr] at hnum
  unfold decompressProperty compressProperty toPlain
  simp only [orStr_some_empty]
  have hsp : orNum (some r.salePrice) (orNum none (JsNum.ofNat 0)) = r.salePrice := by
    unfold orNum JsNum.isZero
    rcases hsz : r.salePrice with ⟨n, d⟩
    by_cases hz : n = 0
    · have := hnum.1
      rw [hsz] at this
      simp only [hsz] at this
      simp_all [JsNum.ofNat]
    · simp_all
  have har : orNum (some r.area) (orNum none (JsNum.ofNat 0)) = r.area := by
    unfold orNum JsNum.isZero
    rcases hsz : r.area with ⟨n, d⟩
    by_cases hz : n = 0
    · have := hnum.2
      rw [hsz] at this
      simp only [hsz] at this
      simp_all [JsNum.ofNat]
    · simp_all
  have hyr : orNat (some r.year) (orNat none 0) = r.year := by
    unfold orNat
    split <;> simp_all
  have hsd : orStr r.saleDate (orStr none "") = r.saleDate.getD "" := by
    rcases r.saleDate with _ | sd
    · rfl
    · simp only [Option.getD_some, orStr_none]
      exact orStr_some_empty sd
  rw [hsp, har, hyr, hsd]
  simp only [orStr_none, orStr_some_empty]

/-- The record parsed from the documented sample line, written out. -/
def sampleRecord : TransactionRecord :=
  { recordType := "B"
    districtCode := "001"
    propertyId := "1667"
    saleCounter := "1"
    downloadDateTime := "20200106 01:00"
    propertyName := ""
    unitNumber := ""
    houseNumber := "103"
    streetName := "RAWSON ST"
    locality := "ABERDARE"
    postcode := "2325"
    area := ⟨101183, 100⟩
    areaType := "M"
    contractDate := "20191116"
    settlementDate := "20191230"
    salePrice := ⟨260000, 1⟩
    zoning := "R2"
    natureOfProperty := "R"
    primaryPurpose := "RESIDENCE"
    strataLot := ""
    year := 2020
    address := "103 RAWSON ST"
    suburb := "ABERDARE"
    propertyType := "Residence"
    saleDate := some "2019-12-30" }

/-- Witness for C10 at the documented sample record. -/
theorem decompress_compress_roundtrip_witness :
    decompressProperty (compressProperty sampleRecord) = toPlain sampleRecord :=
  decompress_compress_roundtrip sampleLine 2020 sampleRecord (by decide) (by decide)

/-- Lexicographic order on character lists by code point; the model of the
string ordering `localeCompare` induces on this program's uppercased
ASCII address data. -/
def lexLeChars : List Char → List Char → Bool
  | [], _ => true
  | _ :: _, [] => false
  | a :: as, b :: bs => if a = b then lexLeChars as bs else decide (a < b)

/-- String comparison used to model the sort comparators in `server.js`. -/
def strLe (a b : String) : Bool := lexLeChars a.toList b.toList

theorem lexLeChars_refl : ∀ cs, lexLeChars cs cs = true := by
  intro cs
  induction cs with
  | nil => rfl
  | cons c t ih => simp [lexLeChars, ih]

theorem lexLeChars_total : ∀ as bs, lexLeChars as bs = true ∨ lexLeChars bs as = true := by
  intro as
  induction as with
  | nil => intro bs; left; rfl
  | cons a as ih =>
    intro bs
    cases bs with
    | nil => right; rfl
    | cons b bs =>
      by_cases hab : a = b
      · subst hab
        simpa [lexLeChars] using ih bs
      · rcases lt_or_gt_of_ne hab with h | h
        · left
          simp [lexLeChars, hab, h]
        · right
          have hba : b ≠ a := fun hba => hab hba.symm
          simp [lexLeChars, hba, h]

theorem lexLeChars_trans : ∀ as bs cs, lexLeChars as bs = true → lexLeChars bs cs = true →
    lexLeChars as cs = true := by
  intro as
  induction as with
  | nil => intro bs cs h1 h2; rfl
  | cons a as ih =>
    intro bs cs h1 h2
    cases bs with
    | nil => simp [lexLeChars] at h1
    | cons b bs =>
      cases cs with
      | nil => simp [lexLeChars] at h2
      | cons c cs =>
        simp only [lexLeChars] at h1 h2 ⊢
        by_cases hab : a = b
        · subst hab
          by_cases hbc : a = c
          · subst hbc
            simp only [if_pos rfl] at h1 h2 ⊢
            exact ih bs cs h1 h2
          · simp only [if_neg hbc] at h2 ⊢
            exact h2
        · by_cases hbc : b = c
          · subst hbc
            simp only [if_neg hab] at h1 ⊢
            exact h1
          · simp only [if_neg hab] at h1
            simp only [if_neg hbc] at h2
            have h1' : a < b := by simpa using h1
            have h2' : b < c := by simpa using h2
            have hac : a < c := lt_trans h1' h2'
            have : a ≠ c := ne_of_lt hac
            simp [this, hac]

theorem strLe_refl (s : String) : strLe s s = true := lexLeChars_refl _

theorem strLe_total (a b : String) : strLe a b = true ∨ strLe b a = true :=
  lexLeChars_total _ _

theorem strLe_trans {a b c : String} (h1 : strLe a b = true) (h2 : strLe b c = true) :
    strLe a c = true := lexLeChars_trans _ _ _ h1 h2

/-- Stable insertion step: place `x` before the first element it compares
less-or-equal to, keeping the relative order of everything else. -/
def insertLe (le : α → α → Bool) (x : α) : List α → List α
  | [] => [x]
  | y :: ys => if le x y then x :: y :: ys else y :: insertLe le x ys

/-- Stable sort (insertion sort).  JavaScript `Array.prototype.sort` is
required to be stable, and a stable sort under a total preorder is unique,
so this function models the sort calls in `server.js` for the total
comparators they use. -/
def stableSortBy (le : α → α → Bool) : List α → List α
  | [] => []
  | x :: xs => insertLe le x (stableSortBy le xs)

theorem insertLe_perm (le : α → α → Bool) (x : α) :
    ∀ l : List α, (insertLe le x l).Perm (x :: l) := by
  intro l
  induction l with
  | nil => rfl
  | cons y ys ih =>
    unfold insertLe
    split
    · rfl
    · exact (List.Perm.cons y ih).trans (List.Perm.swap x y ys)

theorem stableSortBy_perm (le : α → α → Bool) :
    ∀ l : List α, (stableSortBy le l).Perm l := by
  intro l
  induction l with
  | nil => rfl
  | cons x xs ih =>
    exact (insertLe_perm le x (stableSortBy le xs)).trans (ih.cons x)

theorem mem_insertLe (le : α → α → Bool) (x a : α) (l : List α) :
    a ∈ insertLe le x l ↔ a = x ∨ a ∈ l := by
  rw [(insertLe_perm le x l).mem_iff]
  simp

theorem pairwise_insertLe (le : α → α → Bool)
    (htot : ∀ a b, le a b = true ∨ le b a = true)
    (htrans : ∀ a b c, le a b = true → le b c = true → le a c = true)
    (x : α) : ∀ l : List α, l.Pairwise (fun a b => le a b = true) →
      (insertLe le x l).Pairwise (fun a b => le a b = true) := by
  intro l
  induction l with
  | nil => simp [insertLe]
  | cons y ys ih =>
    intro hp
    rw [List.pairwise_cons] at hp
    unfold insertLe
    split
    · next hxy =>
      rw [List.pairwise_cons]
      refine ⟨?_, List.pairwise_cons.mpr hp⟩
      intro b hb
      rcases List.mem_cons.mp hb with rfl | hb
      · exact hxy
      · exact htrans x y b hxy (hp.1 b hb)
    · next hxy =>
      have hyx : le y x = true := by
        rcases htot x y with h | h
        · exact absurd h hxy
        · exact h
      rw [List.pairwise_cons]
      refine ⟨?_, ih hp.2⟩
      intro b hb
      rcases (mem_insertLe le x b ys).mp hb with rfl | hb
      · exact hyx
      · exact hp.1 b hb

theorem pairwise_stableSortBy (le : α → α → Bool)
    (htot : ∀ a b, le a b = true ∨ le b a = true)
    (htrans : ∀ a b c, le a b = true → le b c = true → le a c = true) :
    ∀ l : List α, (stableSortBy le l).Pairwise (fun a b => le a b = true) := by
  intro l
  induction l with
  | nil => simp [stableSortBy]
  | cons x xs ih => exact pairwise_insertLe le htot htrans x _ ih

theorem filter_insertLe (le : α → α → Bool) (K : α → Bool)
    (hK : ∀ a b, K a = true → K b = true → le a b = true) (x : α) :
    ∀ l : List α, (insertLe le x l).filter K =
      if K x then x :: l.filter K else l.filter K := by
  intro l
  induction l with
  | nil => cases hKx : K x <;> simp [insertLe, List.filter_cons, hKx]
  | cons y ys ih =>
    unfold insertLe
    split
    · next hxy =>
      rw [List.filter_cons]
    · next hxy =>
      simp only [List.filter_cons, ih]
      by_cases hKx : K x = true
      · have hKy : K y = false := by
          rcases hKyv : K y with _ | _
          · rfl
          · exact absurd (hK x y hKx hKyv) (by simpa using hxy)
        simp [hKx, hKy]
      · simp only [Bool.not_eq_true] at hKx
        simp [hKx]

theorem filter_stableSortBy (le : α → α → Bool) (K : α → Bool)
    (hK : ∀ a b, K a = true → K b = true → le a b = true) :
    ∀ l : List α, (stableSortBy le l).filter K = l.filter K := by
  intro l
  induction l with
  | nil => rfl
  | cons x xs ih =>
    show (insertLe le x (stableSortBy le xs)).filter K = _
    rw [filter_insertLe le K hK x, ih, List.filter_cons]

/-- The comparator `(a, b) => a.address.localeCompare(b.address)` from
`createOptimizedChunks` in `server.js`, as a boolean "may come first"
relation. -/
def addrLe (a b : TransactionRecord) : Bool := strLe a.address b.address

/-- The address sort performed by `createOptimizedChunks` before
partitioning (`properties.sort(...)`, which is stable in JavaScript). -/
def sortByAddress (properties : List TransactionRecord) : List TransactionRecord :=
  stableSortBy addrLe properties

/-- Partition a list into consecutive pages of `k` elements, as the chunk
loop `for (let i = 0; i < properties.length; i += chunkSize)` does.  The
`k = 0` guard only serves termination; the program's chunk size is
positive (`config.recordsPerChunk || 5000`). -/
def chunkList : Nat → List α → List (List α)
  | _, [] => []
  | 0, _ :: _ => []
  | k + 1, a :: t => (a :: t).take (k + 1) :: chunkList (k + 1) ((a :: t).drop (k + 1))
termination_by k l => l.length
decreasing_by
  simp only [List.length_drop, List.length_cons]
  omega

/-- One entry of a year manifest's chunk list: artifact name and record
count (the byte `size` field, read back from the filesystem, is a
filesystem effect not modelled here). -/
structure ChunkRef where
  filename : String
  count : Nat
deriving DecidableEq, Repr

/-- A year manifest (`manifest.json`); the `created` wall-clock timestamp
is not modelled. -/
structure ManifestData where
  year : Nat
  totalProperties : Nat
  chunks : List ChunkRef
deriving DecidableEq, Repr

/-- One persisted chunk artifact (`properties-<year>-<id>.json`). -/
structure ChunkFileData where
  year : Nat
  chunkId : String
  count : Nat
  properties : List RawProp
deriving DecidableEq, Repr

/-- JavaScript `String(n).padStart(3, '0')`. -/
def pad3 (n : Nat) : String :=
  let s := toString n
  if s.length < 3 then String.mk (List.replicate (3 - s.length) '0') ++ s else s

/-- Chunk artifact name `'properties-' + year + '-' + chunkId + '.json'`. -/
def chunkFileName (year i : Nat) : String :=
  "properties-" ++ toString year ++ "-" ++ pad3 i ++ ".json"

/-- Build one chunk artifact (name and contents) from an enumerated page. -/
def chunkFileOf (year : Nat) (p : Nat × List TransactionRecord) : String × ChunkFileData :=
  (chunkFileName year p.1,
    { year := year
      chunkId := pad3 p.1
      count := p.2.length
      properties := p.2.map compressProperty })

/-- The manifest entry recorded for a written chunk file. -/
def chunkRefOf (f : String × ChunkFileData) : ChunkRef :=
  { filename := f.1, count := f.2.count }

/-- Model of `createOptimizedChunks(year, properties)` from `server.js`:
stable-sort by address, cut into pages of `recordsPerChunk`, compress each
page, and produce the manifest (named files, and the manifest value). -/
def createOptimizedChunksPure (k year : Nat) (properties : List TransactionRecord) :
    List (String × ChunkFileData) × ManifestData :=
  let pages := chunkList k (sortByAddress properties)
  let files := pages.enum.map (chunkFileOf year)
  (files,
    { year := year, totalProperties := properties.length,
      chunks := files.map chunkRefOf })

/-- Page sizes of `chunkList` as a function of the input length alone. -/
def sizesList : Nat → Nat → List Nat
  | _, 0 => []
  | 0, _ + 1 => []
  | k + 1, n + 1 => min (k + 1) (n + 1) :: sizesList (k + 1) (n + 1 - (k + 1))
termination_by k n => n
decreasing_by omega

theorem chunkList_map_length (k : Nat) :
    ∀ (l : List α), (chunkList k l).map List.length = sizesList k l.length := by
  have H : ∀ (n : Nat) (l : List α), l.length = n →
      (chunkList k l).map List.length = sizesList k n := by
    intro n
    induction n using Nat.strong_induction_on generalizing k with
    | _ n ih =>
      intro l hl
      match l, k with
      | [], k =>
        simp at hl
        subst hl
        simp [chunkList, sizesList]
      | a :: t, 0 =>
        subst hl
        simp [chunkList, sizesList]
      | a :: t, k + 1 =>
        subst hl
        simp only [chunkList, List.length_cons, sizesList, List.map_cons, List.length_take]
        congr 1
        exact ih (t.length + 1 - (k + 1)) (by simp only [List.length_cons]; omega) (k + 1)
          ((a :: t).drop (k + 1)) (by simp [List.length_drop])
  intro l
  exact H l.length l rfl

theorem chunkList_flatten (k : Nat) (hk : 0 < k) :
    ∀ (l : List α), (chunkList k l).flatten = l := by
  have H : ∀ (n : Nat) (l : List α), l.length = n → (chunkList k l).flatten = l := by
    intro n
    induction n using Nat.strong_induction_on with
    | _ n ih =>
      intro l hl
      match l, k, hk with
      | [], k, hk => simp [chunkList]
      | a :: t, k + 1, _ =>
        subst hl
        simp only [chunkList, List.flatten_cons]
        rw [ih (((a :: t).drop (k + 1)).length) (by simp [List.length_drop]; omega)
          ((a :: t).drop (k + 1)) rfl]
        exact List.take_append_drop (k + 1) (a :: t)
  intro l
  exact H l.length l rfl

theorem sizesList_le (k : Nat) : ∀ n, ∀ x ∈ sizesList k n, x ≤ k := by
  intro n
  induction n using Nat.strong_induction_on generalizing k with
  | _ n ih =>
    intro x hx
    match n, k with
    | 0, _ => simp [sizesList] at hx
    | n + 1, 0 => simp [sizesList] at hx
    | n + 1, k + 1 =>
      rw [sizesList] at hx
      rcases List.mem_cons.mp hx with hx | hx
      · subst hx
        exact min_le_left _ _
      · exact ih (n + 1 - (k + 1)) (by omega) (k + 1) x hx

theorem sizesList_dropLast (k : Nat) : ∀ n, ∀ x ∈ (sizesList k n).dropLast, x = k := by
  intro n
  induction n using Nat.strong_induction_on generalizing k with
  | _ n ih =>
    intro x hx
    match n, k with
    | 0, _ => simp [sizesList] at hx
    | n + 1, 0 => simp [sizesList] at hx
    | n + 1, k + 1 =>
      rw [sizesList] at hx
      rcases htail : sizesList (k + 1) (n + 1 - (k + 1)) with _ | ⟨z, zs⟩
      · rw [htail] at hx
        simp at hx
      · rw [htail, List.dropLast_cons₂, List.mem_cons] at hx
        rcases hx with hx | hx
        · subst hx
          have hne : n + 1 - (k + 1) ≠ 0 := by
            intro hmk
            rw [hmk] at htail
            simp [sizesList] at htail
          have : k + 1 ≤ n + 1 := by omega
          omega
        · rw [← htail] at hx
          exact ih (n + 1 - (k + 1)) (by omega) (k + 1) x hx

theorem sizesList_succ (k n : Nat) :
    sizesList (k + 1) (n + 1) = min (k + 1) (n + 1) :: sizesList (k + 1) (n + 1 - (k + 1)) := by
  rw [sizesList]

theorem sizesList_zero (k : Nat) : sizesList k 0 = [] := by
  rw [sizesList]

theorem sizesList_5000_10001 : sizesList 5000 10001 = [5000, 5000, 1] := by
  have h1 := sizesList_succ 4999 10000
  have h2 := sizesList_succ 4999 5000
  have h3 := sizesList_succ 4999 0
  norm_num at h1 h2 h3
  rw [h1, h2, h3, sizesList_zero]

theorem manifest_counts (k y : Nat) (l : List TransactionRecord) :
    (createOptimizedChunksPure k y l).2.chunks.map ChunkRef.count
      = (chunkList k (sortByAddress l)).map List.length := by
  show (((chunkList k (sortByAddress l)).enum.map (chunkFileOf y)).map chunkRefOf).map
      ChunkRef.count = _
  rw [List.map_map, List.map_map]
  have he : ((ChunkRef.count ∘ chunkRefOf) ∘ chunkFileOf y) = (List.length ∘ Prod.snd) := rfl
  rw [he, ← List.map_map, List.enum_map_snd]

/-- C3: the chunk writer partitions the address-sorted records into
consecutive pages of at most `recordsPerChunk` records, every page but
possibly the last of size exactly `recordsPerChunk`, the manifest's chunk
counts are the page sizes, and the manifest's total equals the input
count; with `recordsPerChunk = 5000` and 10001 records this gives pages
of sizes 5000, 5000, 1. -/
theorem createOptimizedChunks_partition (k y : Nat) (l : List TransactionRecord)
    (hk : 0 < k) :
    (createOptimizedChunksPure k y l).2.totalProperties = l.length ∧
    (createOptimizedChunksPure k y l).2.chunks.map ChunkRef.count
      = (chunkList k (sortByAddress l)).map List.length ∧
    (chunkList k (sortByAddress l)).flatten = sortByAddress l ∧
    (∀ c ∈ chunkList k (sortByAddress l), c.length ≤ k) ∧
    (∀ c ∈ (chunkList k (sortByAddress l)).dropLast, c.length = k) ∧
    (k = 5000 → l.length = 10001 →
      (createOptimizedChunksPure k y l).2.chunks.map ChunkRef.count = [5000, 5000, 1]) := by
  refine ⟨rfl, manifest_counts k y l, chunkList_flatten k hk _, ?_, ?_, ?_⟩
  · intro c hc
    have hmem : c.length ∈ (chunkList k (sortByAddress l)).map List.length :=
      List.mem_map_of_mem List.length hc
    rw [chunkList_map_length] at hmem
    exact sizesList_le k _ _ hmem
  · intro c hc
    have hmem : c.length ∈ ((chunkList k (sortByAddress l)).map List.length).dropLast := by
      rw [← List.map_dropLast]
      exact List.mem_map_of_mem List.length hc
    rw [chunkList_map_length] at hmem
    exact sizesList_dropLast k _ _ hmem
  · intro hk5 hlen
    have hlen2 : (sortByAddress l).length = l.length := (stableSortBy_perm addrLe l).length_eq
    rw [manifest_counts k y l, chunkList_map_length, hk5, hlen2, hlen]
    exact sizesList_5000_10001

/-- Witness for C3 on a concrete input of 10001 records with chunk size
5000. -/
theorem createOptimizedChunks_partition_witness :
    (createOptimizedChunksPure 5000 2020 (List.replicate 10001 sampleRecord)).2.totalProperties
        = 10001 ∧
    (createOptimizedChunksPure 5000 2020
        (List.replicate 10001 sampleRecord)).2.chunks.map ChunkRef.count = [5000, 5000, 1] := by
  have h := createOptimizedChunks_partition 5000 2020 (List.replicate 10001 sampleRecord)
    (by norm_num)
  have hlen : (List.replicate 10001 sampleRecord).length = 10001 := by
    rw [List.length_replicate]
  exact ⟨h.1.trans hlen, h.2.2.2.2.2 rfl hlen⟩

/-- C5: before partitioning, the chunk writer stable-sorts the records by
full address ascending — the sorted list is a permutation of the input,
pairwise ordered by the address comparator, records with equal addresses
keep their original relative order, and the concatenation of the written
chunks' contents is exactly the sorted list, compressed. -/
theorem createOptimizedChunks_stable_sort (l : List TransactionRecord) :
    (sortByAddress l).Perm l ∧
    (sortByAddress l).Pairwise (fun a b => addrLe a b = true) ∧
    (∀ a : String, (sortByAddress l).filter (fun r => r.address == a)
      = l.filter (fun r => r.address == a)) ∧
    (∀ k y, 0 < k →
      ((createOptimizedChunksPure k y l).1.map (fun f => f.2.properties)).flatten
        = (sortByAddress l).map compressProperty) := by
  refine ⟨stableSortBy_perm addrLe l, ?_, ?_, ?_⟩
  · exact pairwise_stableSortBy addrLe (fun a b => strLe_total a.address b.address)
      (fun a b c h1 h2 => strLe_trans h1 h2) l
  · intro a
    refine filter_stableSortBy addrLe _ ?_ l
    intro x z hx hz
    have hxa : x.address = a := by simpa using hx
    have hza : z.address = a := by simpa using hz
    unfold addrLe
    rw [hxa, hza]
    exact strLe_refl a
  · intro k y hk
    show (((chunkList k (sortByAddress l)).enum.map (chunkFileOf y)).map
      (fun f => f.2.properties)).flatten = _
    rw [List.map_map]
    have he : ((fun f : String × ChunkFileData => f.2.properties) ∘ chunkFileOf y)
        = ((List.map compressProperty) ∘ Prod.snd) := rfl
    rw [he, ← List.map_map, List.enum_map_snd, ← List.map_flatten,
      chunkList_flatten k hk]

/-- Witness for C5's chunk-content conjunct at a concrete chunk size. -/
theorem createOptimizedChunks_stable_sort_witness :
    ((createOptimizedChunksPure 5000 2020 [sampleRecord]).1.map
        (fun f => f.2.properties)).flatten
      = (sortByAddress [sampleRecord]).map compressProperty :=
  (createOptimizedChunks_stable_sort [sampleRecord]).2.2.2 5000 2020 (by norm_num)

/-- UTF-8 encoding of one character, as JavaScript `Buffer.from(string)`
produces byte-wise. -/
def utf8Bytes (c : Char) : List Nat :=
  let n := c.toNat
  if n < 128 then [n]
  else if n < 2048 then [192 + n / 64, 128 + n % 64]
  else if n < 65536 then [224 + n / 4096, 128 + (n / 64) % 64, 128 + n % 64]
  else [240 + n / 262144, 128 + (n / 4096) % 64, 128 + (n / 64) % 64, 128 + n % 64]

/-- The UTF-8 bytes of a string (`Buffer.from(address)`). -/
def strBytes (s : String) : List Nat :=
  s.toList.flatMap utf8Bytes

/-- The standard base64 alphabet character for a sextet value. -/
def base64CharOf (n : Nat) : Char :=
  if n < 26 then Char.ofNat (65 + n)
  else if n < 52 then Char.ofNat (97 + (n - 26))
  else if n < 62 then Char.ofNat (48 + (n - 52))
  else if n = 62 then '+'
  else '/'

/-- Standard base64 encoding of a byte list with `=` padding
(JavaScript `buffer.toString('base64')`). -/
def base64Encode : List Nat → List Char
  | [] => []
  | [b1] => [base64CharOf (b1 / 4), base64CharOf (b1 % 4 * 16), '=', '=']
  | [b1, b2] => [base64CharOf (b1 / 4), base64CharOf (b1 % 4 * 16 + b2 / 16),
      base64CharOf (b2 % 16 * 4), '=']
  | b1 :: b2 :: b3 :: rest =>
    base64CharOf (b1 / 4) :: base64CharOf (b1 % 4 * 16 + b2 / 16)
      :: base64CharOf (b2 % 16 * 4 + b3 / 64) :: base64CharOf (b3 % 64)
      :: base64Encode rest

/-- Model of `hashAddress(address)` from `server.js`:
`Buffer.from(address).toString('base64').replace(/[/+=]/g, '').slice(0, 12)`. -/
def hashAddress (address : String) : String :=
  String.mk (((base64Encode (strBytes address)).filter
    (fun c => c != '/' && c != '+' && c != '=')).take 12)

/-- An AddressFile artifact (`<year>/addresses/<hash>.json`). -/
structure AddressFileData where
  address : String
  count : Nat
  properties : List RawProp
deriving DecidableEq, Repr

/-- Append a record to its address group, creating the group at the end on
first sight — the JavaScript object-accumulation pattern in
`createAddressFiles`. -/
def addToGroups : List (String × List TransactionRecord) → String → TransactionRecord →
    List (String × List TransactionRecord)
  | [], a, p => [(a, [p])]
  | (k, g) :: t, a, p =>
    if k = a then (k, g ++ [p]) :: t else (k, g) :: addToGroups t a p

/-- Group records by lowercased full address, in first-encounter order. -/
def groupByAddress (props : List TransactionRecord) : List (String × List TransactionRecord) :=
  props.foldl (fun gs p => addToGroups gs (toLowerStr p.address) p) []

/-- Model of `createAddressFiles(year, properties)` from `server.js`: for
every lowercased address with more than one sale, emit the artifact
`hashAddress(address) + '.json'` holding the original-case address, the
sale count, and the compressed records. -/
def createAddressFilesPure (props : List TransactionRecord) : List (String × AddressFileData) :=
  (groupByAddress props).filterMap (fun g =>
    if 1 < g.2.length then
      some (hashAddress g.1 ++ ".json",
        { address := (g.2.head?.map TransactionRecord.address).getD ""
          count := g.2.length
          properties := g.2.map compressProperty })
    else none)

/-- The artifact path the read side requests for an (address, year) pair:
`year + '/addresses/' + hashAddress(address) + '.json'` from
`loadPropertiesForAddressYear`. -/
def addressFilePath (year : Nat) (address : String) : String :=
  toString year ++ "/addresses/" ++ hashAddress address ++ ".json"

/-- JavaScript `(p.a || p.address || '')` on an artifact record. -/
def jsAddrOf (p : RawProp) : String := orStr p.a (orStr p.address "")

/-- The MasterIndex key derived from an artifact record in
`createOptimizedIndices`: the lowercased address. -/
def indexKeyOf (p : RawProp) : String := toLowerStr (jsAddrOf p)

theorem mem_addToGroups : ∀ (gs : List (String × List TransactionRecord)) a p k g,
    (k, g) ∈ addToGroups gs a p → (∃ g2, (k, g2) ∈ gs) ∨ k = a := by
  intro gs
  induction gs with
  | nil =>
    intro a p k g h
    simp [addToGroups] at h
    right
    exact h.1
  | cons hd t ih =>
    intro a p k g h
    rcases hd with ⟨k2, g2⟩
    rw [addToGroups] at h
    split at h
    · next heq =>
      rcases List.mem_cons.mp h with h | h
      · left
        refine ⟨g2, ?_⟩
        have : k = k2 := by
          have := congrArg Prod.fst h
          simpa using this
        rw [this]
        exact List.mem_cons_self _ _
      · left
        exact ⟨g, List.mem_cons_of_mem _ h⟩
    · rcases List.mem_cons.mp h with h | h
      · left
        refine ⟨g2, ?_⟩
        have : k = k2 := by
          have := congrArg Prod.fst h
          simpa using this
        rw [this]
        exact List.mem_cons_self _ _
      · rcases ih a p k g h with ⟨g3, hg3⟩ | h
        · exact Or.inl ⟨g3, List.mem_cons_of_mem _ hg3⟩
        · exact Or.inr h

theorem groupByAddress_key (props : List TransactionRecord) (k : String)
    (g : List TransactionRecord) (h : (k, g) ∈ groupByAddress props) :
    ∃ p ∈ props, toLowerStr p.address = k := by
  have H : ∀ (ps : List TransactionRecord) (acc : List (String × List TransactionRecord)) k g,
      (k, g) ∈ ps.foldl (fun gs p => addToGroups gs (toLowerStr p.address) p) acc →
      (∃ g2, (k, g2) ∈ acc) ∨ ∃ p ∈ ps, toLowerStr p.address = k := by
    intro ps
    induction ps with
    | nil =>
      intro acc k g h
      exact Or.inl ⟨g, h⟩
    | cons p t ih =>
      intro acc k g h
      rcases ih _ k g h with ⟨g2, hg2⟩ | ⟨q, hq, hqk⟩
      · rcases mem_addToGroups acc (toLowerStr p.address) p k g2 hg2 with hacc | hk
        · exact Or.inl hacc
        · exact Or.inr ⟨p, List.mem_cons_self _ _, hk.symm⟩
      · exact Or.inr ⟨q, List.mem_cons_of_mem _ hq, hqk⟩
  rcases H props [] k g h with ⟨g2, hg2⟩ | h
  · simp at hg2
  · exact h

/-- C9: AddressFile artifacts are written under
`hashAddress(lowercased address) + '.json'`; the read side requests
`year + '/addresses/' + <the same hash> + '.json'` for the MasterIndex key
of the same record, so writer and reader agree on the artifact name; the
hash is the base64 encoding with `/`, `+`, `=` stripped and truncated to
at most 12 characters. -/
theorem addressFile_naming :
    (∀ (props : List TransactionRecord) (fn : String) (d : AddressFileData),
      (fn, d) ∈ createAddressFilesPure props →
        ∃ p ∈ props, fn = hashAddress (toLowerStr p.address) ++ ".json") ∧
    (∀ (y : Nat) (a : String),
      addressFilePath y a = toString y ++ "/addresses/" ++ hashAddress a ++ ".json") ∧
    (∀ (p : TransactionRecord) (y : Nat),
      addressFilePath y (indexKeyOf (compressProperty p))
        = toString y ++ "/addresses/" ++ (hashAddress (toLowerStr p.address) ++ ".json")) ∧
    (∀ s : String, (hashAddress s).length ≤ 12 ∧
      ∀ c ∈ (hashAddress s).toList, c ≠ '/' ∧ c ≠ '+' ∧ c ≠ '=') := by
  refine ⟨?_, fun y a => rfl, ?_, ?_⟩
  · intro props fn d h
    unfold createAddressFilesPure at h
    rcases List.mem_filterMap.mp h with ⟨g, hg, hsome⟩
    split at hsome
    · rw [Option.some_inj] at hsome
      have hfn : fn = hashAddress g.1 ++ ".json" := by
        have := congrArg Prod.fst hsome
        simpa using this.symm
      rcases groupByAddress_key props g.1 g.2 hg with ⟨p, hp, hpk⟩
      exact ⟨p, hp, by rw [hfn, hpk]⟩
    · cases hsome
  · intro p y
    unfold addressFilePath indexKeyOf jsAddrOf compressProperty
    rw [show orStr (some p.address) (orStr none "") = p.address from orStr_some_empty p.address]
    rw [String.append_assoc]
  · intro s
    constructor
    · show (((base64Encode (strBytes s)).filter
          (fun c => c != '/' && c != '+' && c != '=')).take 12).length ≤ 12
      rw [List.length_take]
      exact min_le_left _ _
    · intro c hc
      have hc2 : c ∈ (base64Encode (strBytes s)).filter
          (fun c => c != '/' && c != '+' && c != '=') := by
        exact List.mem_of_mem_take hc
      have := List.of_mem_filter hc2
      simp only [bne_iff_ne, ne_eq, Bool.and_eq_true, decide_eq_true_eq] at this
      tauto

/-- Witness for C9's membership conjunct at a concrete duplicated-address
input. -/
theorem addressFile_naming_witness :
    ∃ p ∈ [sampleRecord, sampleRecord],
      hashAddress "103 rawson st" ++ ".json" = hashAddress (toLowerStr p.address) ++ ".json" :=
  addressFile_naming.1 [sampleRecord, sampleRecord]
    (hashAddress "103 rawson st" ++ ".json")
    { address := "103 RAWSON ST"
      count := 2
      properties := [compressProperty sampleRecord, compressProperty sampleRecord] }
    (by decide)

/-- The MasterIndex value: address → (year → count), as an insertion-order
association list (JavaScript object with string keys). -/
abbrev MasterIndex := List (String × List (Nat × Nat))

/-- Increment the counter for a year inside one address entry
(`masterIndex[addr][year]++` with on-demand creation). -/
def bumpYear : List (Nat × Nat) → Nat → List (Nat × Nat)
  | [], y => [(y, 1)]
  | (y2, c) :: t, y => if y2 = y then (y2, c + 1) :: t else (y2, c) :: bumpYear t y

/-- Increment the (address, year) counter, creating the address entry on
first sight (`if (!masterIndex[addr]) masterIndex[addr] = {}` and the
increment in `createOptimizedIndices`). -/
def bumpAddr : MasterIndex → String → Nat → MasterIndex
  | [], a, y => [(a, [(y, 1)])]
  | (a2, m) :: t, a, y =>
    if a2 = a then (a2, bumpYear m y) :: t else (a2, m) :: bumpAddr t a y

/-- Read a year counter from an address entry (0 when absent). -/
def lookupYear : List (Nat × Nat) → Nat → Nat
  | [], _ => 0
  | (y2, c) :: t, y => if y2 = y then c else lookupYear t y

/-- Read an (address, year) counter from the MasterIndex (0 when absent). -/
def lookupCount : MasterIndex → String → Nat → Nat
  | [], _, _ => 0
  | (a2, m) :: t, a, y => if a2 = a then lookupYear m y else lookupCount t a y

/-- One step of `createOptimizedIndices`: fold one artifact record into the
index under its year, skipping records with an empty address
(`if (!addr) return`). -/
def indexStep (y : Nat) (idx : MasterIndex) (p : RawProp) : MasterIndex :=
  if indexKeyOf p = "" then idx else bumpAddr idx (indexKeyOf p) y

/-- Model of `createOptimizedIndices` from `server.js`: for every processed
year, read that year's chunks in manifest order and increment the
per-address per-year counter for every record found.  The input is the
year's chunk contents (`chunkData.properties` per chunk). -/
def createOptimizedIndices (years : List (Nat × List (List RawProp))) : MasterIndex :=
  years.foldl
    (fun idx yc => yc.2.foldl (fun idx2 chunk => chunk.foldl (indexStep yc.1) idx2) idx) []

theorem lookupYear_bumpYear (m : List (Nat × Nat)) (y y2 : Nat) :
    lookupYear (bumpYear m y) y2 = lookupYear m y2 + (if y = y2 then 1 else 0) := by
  induction m with
  | nil =>
    by_cases h : y = y2 <;> simp [bumpYear, lookupYear, h]
  | cons hd t ih =>
    rcases hd with ⟨y3, c⟩
    rw [bumpYear]
    split
    · next h3 =>
      subst h3
      by_cases h : y3 = y2 <;> simp [lookupYear, h]
    · next h3 =>
      by_cases h : y3 = y2
      · subst h
        have hne : ¬ y = y3 := fun he => h3 he.symm
        simp [lookupYear, hne]
      · simp [lookupYear, h, ih]

theorem lookupCount_bumpAddr (idx : MasterIndex) (a : String) (y : Nat) (a2 : String)
    (y2 : Nat) :
    lookupCount (bumpAddr idx a y) a2 y2
      = lookupCount idx a2 y2 + (if a = a2 ∧ y = y2 then 1 else 0) := by
  induction idx with
  | nil =>
    by_cases ha : a = a2
    · subst ha
      by_cases hy : y = y2
      · subst hy
        simp [bumpAddr, lookupCount, lookupYear]
      · simp [bumpAddr, lookupCount, lookupYear, hy]
    · simp [bumpAddr, lookupCount, ha]
  | cons hd t ih =>
    rcases hd with ⟨a3, m⟩
    rw [bumpAddr]
    by_cases h3 : a3 = a
    · rw [if_pos h3]
      by_cases ha2 : a3 = a2
      · have haa2 : a = a2 := h3.symm.trans ha2
        simp only [lookupCount, if_pos ha2, lookupYear_bumpYear, haa2, true_and]
      · have hne : a ≠ a2 := fun he => ha2 (h3.trans he)
        simp [lookupCount, ha2, hne]
    · rw [if_neg h3]
      by_cases ha2 : a3 = a2
      · have hne : a ≠ a2 := fun he => h3 (ha2.trans he.symm)
        simp [lookupCount, ha2, hne]
      · simp [lookupCount, ha2, ih]

theorem lookupCount_indexStep (y : Nat) (idx : MasterIndex) (p : RawProp) (a2 : String)
    (y2 : Nat) (ha2 : a2 ≠ "") :
    lookupCount (indexStep y idx p) a2 y2
      = lookupCount idx a2 y2 + (if indexKeyOf p = a2 ∧ y = y2 then 1 else 0) := by
  unfold indexStep
  split
  · next he =>
    have : ¬ (indexKeyOf p = a2 ∧ y = y2) := by
      intro hc
      exact ha2 (hc.1 ▸ he)
    simp [this]
  · exact lookupCount_bumpAddr idx (indexKeyOf p) y a2 y2

theorem lookupCount_foldProps (y : Nat) (a2 : String) (y2 : Nat) (ha2 : a2 ≠ "") :
    ∀ (props : List RawProp) (idx : MasterIndex),
      lookupCount (props.foldl (indexStep y) idx) a2 y2
        = lookupCount idx a2 y2
          + (if y = y2 then props.countP (fun p => indexKeyOf p == a2) else 0) := by
  intro props
  induction props with
  | nil => intro idx; simp
  | cons p t ih =>
    intro idx
    rw [List.foldl_cons, ih, lookupCount_indexStep y idx p a2 y2 ha2]
    rw [List.countP_cons]
    by_cases hy : y = y2
    · by_cases hp : indexKeyOf p = a2
      · simp [hy, hp]
        omega
      · simp [hy, hp]
    · simp [hy]

theorem lookupCount_foldChunks (y : Nat) (a2 : String) (y2 : Nat) (ha2 : a2 ≠ "") :
    ∀ (chunks : List (List RawProp)) (idx : MasterIndex),
      lookupCount (chunks.foldl (fun idx2 chunk => chunk.foldl (indexStep y) idx2) idx) a2 y2
        = lookupCount idx a2 y2
          + (if y = y2 then chunks.flatten.countP (fun p => indexKeyOf p == a2) else 0) := by
  intro chunks
  induction chunks with
  | nil => intro idx; simp
  | cons c t ih =>
    intro idx
    rw [List.foldl_cons, ih, lookupCount_foldProps y a2 y2 ha2]
    rw [List.flatten_cons, List.countP_append]
    by_cases hy : y = y2 <;> simp [hy]
    omega

/-- C6: the MasterIndex built by the index builder maps each non-empty
lowercased address and each year to the exact number of records with that
lowercased address appearing in that year's chunks (summed over the input
entries carrying that year). -/
theorem createOptimizedIndices_counts (years : List (Nat × List (List RawProp)))
    (a : String) (y : Nat) (ha : a ≠ "") :
    lookupCount (createOptimizedIndices years) a y
      = (years.map (fun yc =>
          if yc.1 = y then yc.2.flatten.countP (fun p => indexKeyOf p == a) else 0)).sum := by
  have H : ∀ (ys : List (Nat × List (List RawProp))) (idx : MasterIndex),
      lookupCount (ys.foldl
          (fun idx yc => yc.2.foldl (fun idx2 chunk => chunk.foldl (indexStep yc.1) idx2) idx)
          idx) a y
        = lookupCount idx a y
          + (ys.map (fun yc =>
              if yc.1 = y then yc.2.flatten.countP (fun p => indexKeyOf p == a) else 0)).sum := by
    intro ys
    induction ys with
    | nil => intro idx; simp
    | cons yc t ih =>
      intro idx
      rw [List.foldl_cons, ih, lookupCount_foldChunks yc.1 a y ha]
      rw [List.map_cons, List.sum_cons]
      by_cases hy : yc.1 = y <;> simp [hy]
      omega
  rw [show createOptimizedIndices years = years.foldl
      (fun idx yc => yc.2.foldl (fun idx2 chunk => chunk.foldl (indexStep yc.1) idx2) idx) []
    from rfl, H years []]
  simp [lookupCount]

/-- Witness for C6 on a concrete two-year fixture. -/
theorem createOptimizedIndices_counts_witness :
    lookupCount (createOptimizedIndices
        [(2019, [[compressProperty sampleRecord]]),
         (2020, [[compressProperty sampleRecord], [compressProperty sampleRecord]])])
      "103 rawson st" 2020
      = ([(2019, [[compressProperty sampleRecord]]),
          (2020, [[compressProperty sampleRecord], [compressProperty sampleRecord]])].map
          (fun yc => if yc.1 = 2020
            then yc.2.flatten.countP (fun p => indexKeyOf p == "103 rawson st") else 0)).sum :=
  createOptimizedIndices_counts _ "103 rawson st" 2020 (by decide)

/-- One entry of an archive, as `AdmZip#getEntries` presents it.  A
`.zip`-named entry that opens successfully is `zip` (with the entries
`AdmZip` yields for its data); every other entry — regular files,
directories, and `.zip`-named entries whose data fails to open (the
corrupted-nested-archive case, where the `AdmZip` constructor throws) —
is `plain`.  Container nesting forms a tree, so the type is a tree. -/
inductive ZEntry : Type where
  | plain (entryName : String) (isDirectory : Bool) : ZEntry
  | zip (entryName : String) (isDirectory : Bool) (entries : List ZEntry) : ZEntry

/-- The `entryName` field of an entry. -/
def ZEntry.entryName : ZEntry → String
  | .plain n _ => n
  | .zip n _ _ => n

/-- The `isDirectory` flag of an entry. -/
def ZEntry.isDirectory : ZEntry → Bool
  | .plain _ d => d
  | .zip _ d _ => d

/-- Kernel-computable `String.endsWith`. -/
def endsWithStr (s suffix : String) : Bool :=
  suffix.toList.isSuffixOf s.toList

/-- The raw-data test from `findDATFilesRecursively`:
`!entry.isDirectory && entryName.toLowerCase().endsWith('.dat')`. -/
def isDatEntry (e : ZEntry) : Bool :=
  !e.isDirectory && endsWithStr (toLowerStr e.entryName) ".dat"

/-- The nested-archive test from `findDATFilesRecursively`:
`!entry.isDirectory && entryName.toLowerCase().endsWith('.zip')`. -/
def isZipEntry (e : ZEntry) : Bool :=
  !e.isDirectory && endsWithStr (toLowerStr e.entryName) ".zip"

/-- Model of `findDATFilesRecursively(zip)` from `server.js`: walk the
entries in order; push every non-directory `.dat` entry; for every
non-directory `.zip` entry try to open it and splice in the recursive
scan of its entries — when opening throws (a `plain` entry with a `.zip`
name) the failure is caught, nothing is spliced, and the scan
continues. -/
def findDATFilesRecursively : List ZEntry → List ZEntry
  | [] => []
  | e :: rest =>
    (if isDatEntry e then [e] else [])
      ++ (if isZipEntry e then
            match e with
            | .zip _ _ sub => findDATFilesRecursively sub
            | .plain _ _ => []
          else [])
      ++ findDATFilesRecursively rest

theorem findDAT_nil : findDATFilesRecursively [] = [] := by
  rw [findDATFilesRecursively.eq_def]

theorem findDAT_cons (e : ZEntry) (rest : List ZEntry) :
    findDATFilesRecursively (e :: rest)
      = (if isDatEntry e then [e] else [])
        ++ (if isZipEntry e then
              match e with
              | .zip _ _ sub => findDATFilesRecursively sub
              | .plain _ _ => []
            else [])
        ++ findDATFilesRecursively rest := by
  rw [findDATFilesRecursively.eq_def]

/-- A `.dat` entry reachable from a list of entries through successfully
opened nested archives, at any depth. -/
inductive DATAccessible : List ZEntry → ZEntry → Prop where
  | here {es : List ZEntry} {e : ZEntry} :
      e ∈ es → isDatEntry e = true → DATAccessible es e
  | nested {es : List ZEntry} {e : ZEntry} {n : String} {d : Bool} {sub : List ZEntry} :
      ZEntry.zip n d sub ∈ es → isZipEntry (ZEntry.zip n d sub) = true →
      DATAccessible sub e → DATAccessible es e

theorem DATAccessible_weaken {rest : List ZEntry} {e hd : ZEntry}
    (h : DATAccessible rest e) : DATAccessible (hd :: rest) e := by
  induction h with
  | here hm hdat => exact .here (List.mem_cons_of_mem _ hm) hdat
  | nested hm hzip _ ih2 =>
    exact .nested (List.mem_cons_of_mem _ hm) hzip (by assumption)

theorem findDAT_of_datEntry : ∀ (es : List ZEntry) (e : ZEntry),
    e ∈ es → isDatEntry e = true → e ∈ findDATFilesRecursively es := by
  intro es
  induction es with
  | nil => intro e h _; cases h
  | cons hd rest ih =>
    intro e h hdat
    rw [findDAT_cons]
    rcases List.mem_cons.mp h with rfl | h
    · rw [if_pos hdat]
      exact List.mem_append_left _ (List.mem_append_left _ (List.mem_singleton.mpr rfl))
    · exact List.mem_append_right _ (ih e h hdat)

theorem findDAT_of_nested : ∀ (es : List ZEntry) (n : String) (d : Bool)
    (sub : List ZEntry) (e : ZEntry),
    ZEntry.zip n d sub ∈ es → isZipEntry (ZEntry.zip n d sub) = true →
    e ∈ findDATFilesRecursively sub → e ∈ findDATFilesRecursively es := by
  intro es
  induction es with
  | nil => intro n d sub e h _ _; cases h
  | cons hd rest ih =>
    intro n d sub e h hzip hsub
    rw [findDAT_cons]
    rcases List.mem_cons.mp h with heq | h
    · subst heq
      rw [if_pos hzip]
      exact List.mem_append_left _ (List.mem_append_right _ hsub)
    · exact List.mem_append_right _ (ih n d sub e h hzip hsub)

theorem mem_findDAT_accessible :
    ∀ (N : Nat) (es : List ZEntry), sizeOf es ≤ N → ∀ e : ZEntry,
      e ∈ findDATFilesRecursively es → DATAccessible es e := by
  intro N
  induction N with
  | zero =>
    intro es hsz e hm
    cases es with
    | nil =>
      rw [findDAT_nil] at hm
      cases hm
    | cons hd rest =>
      simp at hsz
  | succ N ih =>
    intro es hsz e hm
    cases es with
    | nil =>
      rw [findDAT_nil] at hm
      cases hm
    | cons hd rest =>
      rw [findDAT_cons] at hm
      rcases List.mem_append.mp hm with hm1 | hm23
      · rcases List.mem_append.mp hm1 with hm1 | hm2
        · split at hm1
          · next hdat =>
            rcases List.mem_singleton.mp hm1 with rfl
            exact .here (List.mem_cons_self _ _) hdat
          · cases hm1
        · split at hm2
          · next hzip =>
            match hd, hm2 with
            | .zip n d sub, hm2 =>
              have hssub : sizeOf sub ≤ N := by
                simp at hsz
                omega
              exact .nested (List.mem_cons_self _ _) hzip (ih sub hssub e hm2)
          · cases hm2
      · have hsrest : sizeOf rest ≤ N := by
          cases hd <;> simp at hsz <;> omega
        exact DATAccessible_weaken (ih rest hsrest e hm23)

/-- C7: the archive scanner returns exactly the `.dat` entries reachable
through successfully opened nested archives at every depth; and a
`.zip`-named entry that fails to open is skipped without aborting the
scan or dropping any entry found before (or after) it. -/
theorem findDAT_correct :
    (∀ (es : List ZEntry) (e : ZEntry),
      e ∈ findDATFilesRecursively es ↔ DATAccessible es e) ∧
    (∀ (pre post : List ZEntry) (n : String),
      endsWithStr (toLowerStr n) ".zip" = true →
      endsWithStr (toLowerStr n) ".dat" = false →
      findDATFilesRecursively (pre ++ ZEntry.plain n false :: post)
        = findDATFilesRecursively pre ++ findDATFilesRecursively post) := by
  constructor
  · intro es e
    constructor
    · exact mem_findDAT_accessible (sizeOf es) es le_rfl e
    · intro hacc
      induction hacc with
      | here hm hdat => exact findDAT_of_datEntry _ _ hm hdat
      | nested hm hzip _ ih => exact findDAT_of_nested _ _ _ _ _ hm hzip ih
  · intro pre post n hzip hdat
    induction pre with
    | nil =>
      rw [List.nil_append, findDAT_cons]
      have h1 : isDatEntry (ZEntry.plain n false) = false := by
        simp [isDatEntry, ZEntry.isDirectory, ZEntry.entryName, hdat]
      have h2 : isZipEntry (ZEntry.plain n false) = true := by
        simp [isZipEntry, ZEntry.isDirectory, ZEntry.entryName, hzip]
      rw [h1, h2]
      simp [findDAT_nil]
    | cons hd rest ih =>
      rw [List.cons_append, findDAT_cons, ih]
      conv_rhs => rw [findDAT_cons]
      simp [List.append_assoc]

/-- Witness for C7 at a concrete archive: one top-level data entry, one
openable nested archive holding a data entry, and one corrupted nested
archive in the middle. -/
theorem findDAT_correct_witness :
    DATAccessible
      [ZEntry.plain "a.dat" false, ZEntry.plain "bad.zip" false,
        ZEntry.zip "ok.zip" false [ZEntry.plain "b.dat" false]]
      (ZEntry.plain "b.dat" false) ∧
    findDATFilesRecursively
        ([ZEntry.plain "a.dat" false] ++ ZEntry.plain "bad.zip" false
          :: [ZEntry.zip "ok.zip" false [ZEntry.plain "b.dat" false]])
      = findDATFilesRecursively [ZEntry.plain "a.dat" false]
        ++ findDATFilesRecursively [ZEntry.zip "ok.zip" false [ZEntry.plain "b.dat" false]] := by
  have e1t : isDatEntry (ZEntry.plain "a.dat" false) = true := by decide
  have e1z : isZipEntry (ZEntry.plain "a.dat" false) = false := by decide
  have e2t : isDatEntry (ZEntry.plain "bad.zip" false) = false := by decide
  have e2z : isZipEntry (ZEntry.plain "bad.zip" false) = true := by decide
  have e3t : isDatEntry (ZEntry.zip "ok.zip" false [ZEntry.plain "b.dat" false]) = false := by
    decide
  have e3z : isZipEntry (ZEntry.zip "ok.zip" false [ZEntry.plain "b.dat" false]) = true := by
    decide
  have e4t : isDatEntry (ZEntry.plain "b.dat" false) = true := by decide
  have e4z : isZipEntry (ZEntry.plain "b.dat" false) = false := by decide
  constructor
  · refine (findDAT_correct.1 _ _).mp ?_
    show ZEntry.plain "b.dat" false ∈ findDATFilesRecursively _
    have he : findDATFilesRecursively
        [ZEntry.plain "a.dat" false, ZEntry.plain "bad.zip" false,
          ZEntry.zip "ok.zip" false [ZEntry.plain "b.dat" false]]
        = [ZEntry.plain "a.dat" false, ZEntry.plain "b.dat" false] := by
      simp only [findDAT_cons, findDAT_nil, e1t, e1z, e2t, e2z, e3t, e3z, e4t, e4z]
      simp
    rw [he]
    exact List.mem_cons_of_mem _ (List.mem_singleton.mpr rfl)
  · exact findDAT_correct.2 [ZEntry.plain "a.dat" false]
      [ZEntry.zip "ok.zip" false [ZEntry.plain "b.dat" false]] "bad.zip" (by decide) (by decide)

/-- A parsed JSON artifact, typed by the artifact schemas this program
writes and reads (a shape other than the one a reader expects makes the
reader's field accesses throw, which its `try`/`catch` turns into the
empty result — modelled by the wildcard arms below). -/
inductive Artifact : Type where
  | index (idx : MasterIndex) : Artifact
  | manifest (m : ManifestData) : Artifact
  | chunk (c : ChunkFileData) : Artifact
  | addrFile (a : AddressFileData) : Artifact
deriving DecidableEq, Repr

/-- What the HTTPS GET of one URL yields: a request error event, or a
response with a status code and a body. -/
inductive FetchOutcome : Type where
  | netError : FetchOutcome
  | response (status : Nat) (body : String) : FetchOutcome
deriving DecidableEq, Repr

/-- The raw.githubusercontent.com URL built by `fetchGitHubFile`. -/
def githubUrl (user repo branch filepath : String) : String :=
  "https://raw.githubusercontent.com/" ++ user ++ "/" ++ repo ++ "/" ++ branch ++ "/"
    ++ filepath

/-- Model of `fetchGitHubFile(filepath)` from `server.js` on a cache miss:
issue the GET (`net` is the network), resolve `none` on a request error or
a non-200 status, otherwise parse the body as JSON (`parse` models
`JSON.parse`, `none` for a parse failure) — never rejecting the promise.
The 15-minute in-process cache only replays earlier results and is not
modelled. -/
def fetchGitHubFile (net : String → FetchOutcome) (parse : String → Option Artifact)
    (user repo branch filepath : String) : Option Artifact :=
  match net (githubUrl user repo branch filepath) with
  | .netError => none
  | .response status body => if status ≠ 200 then none else parse body

/-- JavaScript `masterIndex[address]` (the address is always a present
key when this is reached). -/
def lookupAddr : MasterIndex → String → List (Nat × Nat)
  | [], _ => []
  | (a2, m) :: t, a => if a2 = a then m else lookupAddr t a

/-- `Object.keys(masterIndex[address])` for the per-address year map: per
ECMAScript `OrdinaryOwnPropertyKeys`, integer-indexed keys (year strings
such as `"2020"`) enumerate in ascending numeric order, whatever order
they were inserted or serialized in. -/
def jsYears (m : List (Nat × Nat)) : List Nat :=
  stableSortBy (fun a b => decide (a ≤ b)) (m.map Prod.fst).dedup

/-- The chunk-scan fallback loop of `loadPropertiesForAddressYear`: walk
the manifest's first chunks, skip chunks that fail to fetch, and return
the first chunk's exact-address matches if any; a chunk of an unexpected
shape makes `.properties` throw, which the surrounding `try` turns into
the empty result. -/
def loadChunkScan (fetch : String → Option Artifact) (address : String) (year : Nat) :
    List ChunkRef → List PlainProperty
  | [] => []
  | cm :: rest =>
    match fetch (toString year ++ "/" ++ cm.filename) with
    | none => loadChunkScan fetch address year rest
    | some (.chunk c) =>
      if 0 < (c.properties.filter
          (fun p => toLowerStr (jsAddrOf p) == toLowerStr address)).length
      then (c.properties.filter
          (fun p => toLowerStr (jsAddrOf p) == toLowerStr address)).map decompressProperty
      else loadChunkScan fetch address year rest
    | some _ => []

/-- Model of `loadPropertiesForAddressYear(address, year)` from
`server.js`: try the AddressFile fast path (exact lowercased address
match over its records), else fall back to scanning the first 3 chunks of
the year's manifest; every failure path yields the empty list. -/
def loadPropertiesForAddressYear (fetch : String → Option Artifact) (address : String)
    (year : Nat) : List PlainProperty :=
  match fetch (addressFilePath year address) with
  | some (.addrFile ad) =>
    (ad.properties.filter
      (fun p => toLowerStr (jsAddrOf p) == toLowerStr address)).map decompressProperty
  | some _ => []
  | none =>
    match fetch (toString year ++ "/manifest.json") with
    | some (.manifest m) => loadChunkScan fetch address year (m.chunks.take 3)
    | some _ => []
    | none => []

/-- The sale-date comparator of `searchAddressFromGitHub`
(`(a, b) => new Date(b.saleDate) - new Date(a.saleDate)`), modelled on the
ISO `YYYY-MM-DD` date strings this program produces, where lexicographic
and chronological order agree: `a` may come before `b` when `b`'s date is
not later. -/
def dateDescLe (a b : PlainProperty) : Bool := strLe b.saleDate a.saleDate

/-- The inner year loop of `searchAddressFromGitHub`: load each year's
records for the address, appending to the accumulator, and break once it
holds at least `limit * 2` records. -/
def searchGoYears (fetch : String → Option Artifact) (address : String) (lim2 : Nat) :
    List Nat → List PlainProperty → List PlainProperty
  | [], acc => acc
  | y :: ys, acc =>
    if lim2 ≤ (acc ++ loadPropertiesForAddressYear fetch address y).length
    then acc ++ loadPropertiesForAddressYear fetch address y
    else searchGoYears fetch address lim2 ys
      (acc ++ loadPropertiesForAddressYear fetch address y)

/-- The outer candidate-address loop of `searchAddressFromGitHub`: for
each matching address run the year loop over the first 3 enumerated
years, and break once the accumulator holds at least `limit * 2`
records. -/
def searchGoAddrs (fetch : String → Option Artifact) (idx : MasterIndex) (lim2 : Nat) :
    List String → List PlainProperty → List PlainProperty
  | [], acc => acc
  | a :: rest, acc =>
    if lim2 ≤ (searchGoYears fetch a lim2 ((jsYears (lookupAddr idx a)).take 3) acc).length
    then searchGoYears fetch a lim2 ((jsYears (lookupAddr idx a)).take 3) acc
    else searchGoAddrs fetch idx lim2 rest
      (searchGoYears fetch a lim2 ((jsYears (lookupAddr idx a)).take 3) acc)

/-- Model of `searchAddressFromGitHub(query, limit)` from `server.js` on a
cache miss: load the MasterIndex (a missing index throws, which the
`catch` turns into the empty result), select up to 20 keys containing the
lowercased query, accumulate records per candidate address and year with
the `limit * 2` cutoff, then sort by descending sale date and truncate to
`limit`.  The 5-minute result cache only replays earlier results and is
not modelled. -/
def searchAddressFromGitHub (fetch : String → Option Artifact) (query : String)
    (limit : Nat) : List PlainProperty :=
  match fetch "master-address-index.json" with
  | some (.index idx) =>
    (stableSortBy dateDescLe
      (searchGoAddrs fetch idx (limit * 2)
        (((idx.map Prod.fst).filter (fun a => jsIncludes a (toLowerStr query))).take 20)
        [])).take limit
  | _ => []

/-- C8: `fetchGitHubFile` resolves to not-found — it is a total function,
never an exception — exactly when the request errors, the status is not
200, or the body fails to parse; and with every artifact absent the query
operations return empty results. -/
theorem fetchGitHubFile_not_found :
    (∀ (net : String → FetchOutcome) (parse : String → Option Artifact)
        (user repo branch fp : String),
      fetchGitHubFile net parse user repo branch fp = none ↔
        (net (githubUrl user repo branch fp) = .netError ∨
          ∃ st body, net (githubUrl user repo branch fp) = .response st body ∧
            (st ≠ 200 ∨ parse body = none))) ∧
    (∀ (addr : String) (y : Nat),
      loadPropertiesForAddressYear (fun _ => none) addr y = []) ∧
    (∀ (q : String) (lim : Nat), searchAddressFromGitHub (fun _ => none) q lim = []) := by
  refine ⟨?_, fun addr y => rfl, fun q lim => rfl⟩
  intro net parse user repo branch fp
  unfold fetchGitHubFile
  cases hnet : net (githubUrl user repo branch fp) with
  | netError => simp
  | response st body =>
    by_cases hst : st = 200
    · subst hst
      simp [hnet]
      constructor
      · intro h
        exact ⟨200, body, ⟨rfl, rfl⟩, Or.inr h⟩
      · rintro ⟨st2, b2, ⟨h1, h2⟩, hor⟩
        subst h2
        rcases hor with hor | hor
        · exact absurd h1.symm hor
        · exact hor
    · simp [hnet, hst]
      exact ⟨st, body, ⟨rfl, rfl⟩, Or.inl hst⟩

/-- Accumulate whole blocks in order until the accumulator holds at least
`bound` records (the block appended when the bound is crossed is kept
whole), per the claim's "accumulate until twice the requested limit is
reached" description. -/
def accumBlocks (bound : Nat) : List (List PlainProperty) → List PlainProperty →
    List PlainProperty
  | [], acc => acc
  | b :: bs, acc =>
    if bound ≤ (acc ++ b).length then acc ++ b
    else accumBlocks bound bs (acc ++ b)

/-- The per-(address, year) record blocks examined for one candidate
address: the first 3 years in JavaScript key-enumeration order (ascending
year). -/
def yearBlocksOf (fetch : String → Option Artifact) (idx : MasterIndex) (a : String) :
    List (List PlainProperty) :=
  ((jsYears (lookupAddr idx a)).take 3).map (loadPropertiesForAddressYear fetch a)

/-- Compositional description of the address search, following the claim's
words with the year selection amended to what the code enumerates: select
at most 20 index keys containing the lowercased query, examine up to the
first 3 years of each in ascending key order, accumulate until twice the
limit, sort by descending sale date, truncate to the limit. -/
def searchByAddressSpec (fetch : String → Option Artifact) (query : String)
    (limit : Nat) : List PlainProperty :=
  match fetch "master-address-index.json" with
  | some (.index idx) =>
    (stableSortBy dateDescLe
      (accumBlocks (limit * 2)
        ((((idx.map Prod.fst).filter (fun a => jsIncludes a (toLowerStr query))).take 20).flatMap
          (yearBlocksOf fetch idx))
        [])).take limit
  | _ => []

/-- The per-address blocks under the claim's original reading: the 3 MOST
RECENT years of each candidate address. -/
def yearBlocksMostRecent (fetch : String → Option Artifact) (idx : MasterIndex)
    (a : String) : List (List PlainProperty) :=
  ((stableSortBy (fun x y => decide (y ≤ x)) (jsYears (lookupAddr idx a))).take 3).map
    (loadPropertiesForAddressYear fetch a)

/-- The claim's original description verbatim: like `searchByAddressSpec`
but examining up to the 3 most recent years per candidate address. -/
def searchByAddressClaim (fetch : String → Option Artifact) (query : String)
    (limit : Nat) : List PlainProperty :=
  match fetch "master-address-index.json" with
  | some (.index idx) =>
    (stableSortBy dateDescLe
      (accumBlocks (limit * 2)
        ((((idx.map Prod.fst).filter (fun a => jsIncludes a (toLowerStr query))).take 20).flatMap
          (yearBlocksMostRecent fetch idx))
        [])).take limit
  | _ => []

theorem searchGoYears_eq_accumBlocks (fetch : String → Option Artifact) (a : String)
    (lim2 : Nat) : ∀ (ys : List Nat) (acc : List PlainProperty),
    searchGoYears fetch a lim2 ys acc
      = accumBlocks lim2 (ys.map (loadPropertiesForAddressYear fetch a)) acc := by
  intro ys
  induction ys with
  | nil => intro acc; rfl
  | cons y t ih =>
    intro acc
    rw [List.map_cons, searchGoYears, accumBlocks]
    split
    · rfl
    · exact ih _

theorem accumBlocks_append (lim2 : Nat) :
    ∀ (bs1 bs2 : List (List PlainProperty)) (acc : List PlainProperty),
      acc.length < lim2 →
      accumBlocks lim2 (bs1 ++ bs2) acc
        = if lim2 ≤ (accumBlocks lim2 bs1 acc).length
          then accumBlocks lim2 bs1 acc
          else accumBlocks lim2 bs2 (accumBlocks lim2 bs1 acc) := by
  intro bs1
  induction bs1 with
  | nil =>
    intro bs2 acc hacc
    rw [List.nil_append]
    show accumBlocks lim2 bs2 acc
      = if lim2 ≤ acc.length then acc else accumBlocks lim2 bs2 acc
    rw [if_neg (not_le.mpr hacc)]
  | cons b t ih =>
    intro bs2 acc hacc
    rw [List.cons_append, accumBlocks]
    by_cases hb : lim2 ≤ (acc ++ b).length
    · rw [if_pos hb]
      have h2 : accumBlocks lim2 (b :: t) acc = acc ++ b := by
        rw [accumBlocks, if_pos hb]
      rw [h2, if_pos hb]
    · rw [if_neg hb]
      have h2 : accumBlocks lim2 (b :: t) acc = accumBlocks lim2 t (acc ++ b) := by
        rw [accumBlocks, if_neg hb]
      rw [h2, ih bs2 (acc ++ b) (not_le.mp hb)]

theorem searchGoAddrs_eq_accumBlocks (fetch : String → Option Artifact) (idx : MasterIndex)
    (lim2 : Nat) : ∀ (addrs : List String) (acc : List PlainProperty),
    acc.length < lim2 →
    searchGoAddrs fetch idx lim2 addrs acc
      = accumBlocks lim2 (addrs.flatMap (yearBlocksOf fetch idx)) acc := by
  intro addrs
  induction addrs with
  | nil => intro acc _; rfl
  | cons a rest ih =>
    intro acc hacc
    rw [List.flatMap_cons, searchGoAddrs,
      searchGoYears_eq_accumBlocks fetch a lim2 ((jsYears (lookupAddr idx a)).take 3) acc,
      accumBlocks_append lim2 (yearBlocksOf fetch idx a) (rest.flatMap (yearBlocksOf fetch idx))
        acc hacc]
    have hyb : ((jsYears (lookupAddr idx a)).take 3).map (loadPropertiesForAddressYear fetch a)
        = yearBlocksOf fetch idx a := rfl
    rw [hyb]
    by_cases hb : lim2 ≤ (accumBlocks lim2 (yearBlocksOf fetch idx a) acc).length
    · rw [if_pos hb, if_pos hb]
    · rw [if_neg hb, if_neg hb]
      exact ih _ (not_le.mp hb)

/-- C4 (amended): for a positive limit, the address search equals the
compositional description — at most 20 matching index keys, the first 3
years of each in ascending key order (the 3 oldest, not the 3 most
recent), accumulation until twice the limit, descending sale-date sort,
truncation to the limit. -/
theorem searchAddress_eq_spec (fetch : String → Option Artifact) (q : String) (lim : Nat)
    (hlim : 0 < lim) :
    searchAddressFromGitHub fetch q lim = searchByAddressSpec fetch q lim := by
  unfold searchAddressFromGitHub searchByAddressSpec
  cases hf : fetch "master-address-index.json" with
  | none => rfl
  | some art =>
    cases art with
    | index idx =>
      dsimp only
      rw [searchGoAddrs_eq_accumBlocks fetch idx (lim * 2)
        (((idx.map Prod.fst).filter (fun a => jsIncludes a (toLowerStr q))).take 20) []
        (by simp only [List.length_nil]; omega)]
    | manifest m => rfl
    | chunk c => rfl
    | addrFile a => rfl

/-- Fixture record for one sale of the address `1 A ST` with the given
sale date, in the compact artifact shape. -/
def cexProp (d : String) : RawProp := { a := some "1 A ST", d := some d }

/-- Fixture MasterIndex: one address sold once in each of four years. -/
def cexIndex : MasterIndex := [("1 a st", [(2018, 1), (2019, 1), (2020, 1), (2021, 1)])]

/-- Fixture AddressFile holding the one sale of a year. -/
def cexAddrFile (d : String) : AddressFileData :=
  { address := "1 A ST", count := 1, properties := [cexProp d] }

/-- Fixture artifact store: the MasterIndex plus one AddressFile per year
under the hashed-address path the reader requests. -/
def cexFetch (fp : String) : Option Artifact :=
  if fp = "master-address-index.json" then some (.index cexIndex)
  else if fp = addressFilePath 2018 "1 a st" then some (.addrFile (cexAddrFile "2018-01-01"))
  else if fp = addressFilePath 2019 "1 a st" then some (.addrFile (cexAddrFile "2019-01-01"))
  else if fp = addressFilePath 2020 "1 a st" then some (.addrFile (cexAddrFile "2020-01-01"))
  else if fp = addressFilePath 2021 "1 a st" then some (.addrFile (cexAddrFile "2021-01-01"))
  else none

/-- C4 counterexample: on a four-year fixture the search examines the
first 3 years in ascending key order (2018, 2019, 2020) — not the 3 most
recent (2019, 2020, 2021) as the claim states — so the code's result
differs from the claim's description: it contains the 2018 sale and lacks
the 2021 sale. -/
theorem searchAddress_not_mostRecent :
    searchAddressFromGitHub cexFetch "1 a" 5 ≠ searchByAddressClaim cexFetch "1 a" 5 := by
  decide

/-- Witness for the amended C4 at the concrete fixture. -/
theorem searchAddress_eq_spec_witness :
    0 < 5 ∧ searchAddressFromGitHub cexFetch "1 a" 5 = searchByAddressSpec cexFetch "1 a" 5 :=
  ⟨by decide, searchAddress_eq_spec cexFetch "1 a" 5 (by decide)⟩

end NSWProperty
